import Mathlib

/-!
Shallow embedding of the computational core of `src/Bottleneck_app.py`
(a Streamlit line-balancing / bottleneck-analysis sheet).

Numeric columns of the pandas frames are modelled as rationals (the Python
floats carry exact decimal inputs here; no rounding is performed by the
computation itself).  A pandas `Series.max()` over an empty series yields
NaN and the subsequent `values[0]` indexing on an empty selection raises
`IndexError`; both are modelled with `Option`, where `none` stands for the
uncaught exception / NaN-poisoned path that never returns a result.
-/

/-- One row of the resolved route table `route_ops` (after the merge with
the labor-grade table): operation number, description, cycle time in
seconds and hourly labor rate (source lines 52-67). -/
structure OpRow where
  opno : ℚ
  descrip : String
  cycletime : ℚ
  hourrate : ℚ

/-- The three user-editable improvement columns of `edited_df`
(source lines 89-91): the Extra Operators column is created from the
integer literal 0, hence an integer column; the other two are floats. -/
structure ImpSpec where
  extraOperators : ℤ
  timeSaving : ℚ
  improvementPct : ℚ

/-- Improved cycle time of one row (source lines 109-113):
divide by (operators + 1), subtract the fixed saving and clamp at 0,
scale by (1 - pct/100) when pct > 0, clamp at 0 again. -/
def new_time (original : ℚ) (operators : ℤ) (saving_sec improvement_pct : ℚ) : ℚ :=
  let t := original / ((operators : ℚ) + 1)
  let t := max (t - saving_sec) 0
  let t := if improvement_pct > 0 then t * (1 - improvement_pct / 100) else t
  max t 0

/-- Step 1 of the specification's improvement simulation (spec section 4.2):
divide the original cycle time by (extra operators + 1). -/
def specStep1 (cycle : ℚ) (extraOps : ℤ) : ℚ :=
  cycle / ((extraOps : ℚ) + 1)

/-- Step 2 of the specification: subtract the fixed time-saving, floor at 0. -/
def specStep2 (t saving : ℚ) : ℚ :=
  max (t - saving) 0

/-- Step 3 of the specification: if the percentage improvement is positive,
multiply by (1 - percentage/100). -/
def specStep3 (t pct : ℚ) : ℚ :=
  if pct > 0 then t * (1 - pct / 100) else t

/-- Step 4 of the specification: floor at 0 again (defensive). -/
def specStep4 (t : ℚ) : ℚ :=
  max t 0

/-- The specification's improvement pipeline: steps 1-4 composed in order. -/
def specImprovedTime (cycle : ℚ) (extraOps : ℤ) (saving pct : ℚ) : ℚ :=
  specStep4 (specStep3 (specStep2 (specStep1 cycle extraOps) saving) pct)

/-- The four per-row accumulator values appended by one iteration of the
calculation loop (source lines 102-121). -/
structure RowCalc where
  improved : ℚ
  red : ℚ
  save_unit : ℚ
  save_order : ℚ

/-- One iteration of the calculation loop (source lines 102-121). -/
def rowCalc (order_qty : ℚ) (o : OpRow) (s : ImpSpec) : RowCalc :=
  let nt := new_time o.cycletime s.extraOperators s.timeSaving s.improvementPct
  let red := o.cycletime - nt
  let save_unit := (red / 3600) * o.hourrate
  ⟨nt, red, save_unit, save_unit * order_qty⟩

/-- The calculation loop over the rows of `edited_df` (one `ImpSpec` per
operation row, source lines 102-121). -/
def loopRows (order_qty : ℚ) (ops : List OpRow) (specs : List ImpSpec) : List RowCalc :=
  List.zipWith (rowCalc order_qty) ops specs

/-- The `improved_cycle` series (source lines 97, 114, 123). -/
def improved_cycle (order_qty : ℚ) (ops : List OpRow) (specs : List ImpSpec) : List ℚ :=
  (loopRows order_qty ops specs).map (·.improved)

/-- The `reduction` series (source lines 98, 116-117, 124). -/
def reduction (order_qty : ℚ) (ops : List OpRow) (specs : List ImpSpec) : List ℚ :=
  (loopRows order_qty ops specs).map (·.red)

/-- The `savings_per_unit` series (source lines 99, 119-120, 125). -/
def savings_per_unit (order_qty : ℚ) (ops : List OpRow) (specs : List ImpSpec) : List ℚ :=
  (loopRows order_qty ops specs).map (·.save_unit)

/-- The `savings_order` series (source lines 100, 121, 126). -/
def savings_order (order_qty : ℚ) (ops : List OpRow) (specs : List ImpSpec) : List ℚ :=
  (loopRows order_qty ops specs).map (·.save_order)

/-- The route total `total_time_saved = reduction.sum()` (source line 152). -/
def total_time_saved (order_qty : ℚ) (ops : List OpRow) (specs : List ImpSpec) : ℚ :=
  (reduction order_qty ops specs).sum

/-- The route total `total_savings_order = sum(savings_order)` (source line 153). -/
def total_savings_order (order_qty : ℚ) (ops : List OpRow) (specs : List ImpSpec) : ℚ :=
  (savings_order order_qty ops specs).sum

/-- Embedding of pandas `Series.max()`: the maximum of a nonempty column,
`none` (NaN) on an empty one. -/
def seriesMax : List ℚ → Option ℚ
  | [] => none
  | x :: xs => some (xs.foldl max x)

/-- Current bottleneck time `route_ops["cycletime"].max()` (source line 70). -/
def bottleneck_time (ops : List OpRow) : Option ℚ :=
  seriesMax (ops.map (·.cycletime))

/-- Improved bottleneck time `improved_cycle.max()` (source line 128). -/
def new_bottleneck_time (order_qty : ℚ) (ops : List OpRow) (specs : List ImpSpec) : Option ℚ :=
  seriesMax (improved_cycle order_qty ops specs)

/-- Elementwise equality of a series with a scalar, as produced by the
pandas comparisons on source lines 71 and 129 (the bottleneck flag columns). -/
def eqFlags (vals : List ℚ) (b : ℚ) : List Bool :=
  vals.map fun v => decide (v = b)

/-- The `route_ops["bottleneck"]` flag column (source line 71); all-false on
the NaN path of an empty frame. -/
def bottleneckFlags (ops : List OpRow) : List Bool :=
  match bottleneck_time ops with
  | none => ops.map fun _ => false
  | some bt => eqFlags (ops.map (·.cycletime)) bt

/-- The `new_bottleneck_flag` column (source line 129). -/
def newBottleneckFlags (order_qty : ℚ) (ops : List OpRow) (specs : List ImpSpec) : List Bool :=
  match new_bottleneck_time order_qty ops specs with
  | none => (improved_cycle order_qty ops specs).map fun _ => false
  | some nbt => eqFlags (improved_cycle order_qty ops specs) nbt

/-- Source line 140, `route_ops.loc[route_ops["bottleneck"], "opno"].values[0]`:
the opno of the first row whose bottleneck flag is set; `none` models the
`IndexError` raised when the flagged selection is empty. -/
def old_bn (ops : List OpRow) : Option ℚ :=
  (((ops.zip (bottleneckFlags ops)).filter fun p => p.2).head?).map fun p => p.1.opno

/-- Source line 141, `route_ops.loc[new_bottleneck_flag, "opno"].values[0]`:
the opno of the first row whose new-bottleneck flag is set; `none` models
the `IndexError` raised when the flagged selection is empty. -/
def new_bn (order_qty : ℚ) (ops : List OpRow) (specs : List ImpSpec) : Option ℚ :=
  (((ops.zip (newBottleneckFlags order_qty ops specs)).filter fun p => p.2).head?).map
    fun p => p.1.opno

/-- Source lines 140-145: the insight message reports the bottleneck as
moved exactly when the two extracted operation numbers differ; `none`
models the crash when either extraction raises. -/
def bottleneck_moved (order_qty : ℚ) (ops : List OpRow) (specs : List ImpSpec) : Option Bool :=
  match old_bn ops, new_bn order_qty ops specs with
  | some ob, some nb => some (decide (ob ≠ nb))
  | _, _ => none

/-- Sort key of `route_ops.sort_values("opno")` (source line 54). -/
def leOp (a b : OpRow) : Bool :=
  decide (a.opno ≤ b.opno)

/-- Embedding of `route_ops.sort_values("opno")` (source line 54): a stable
ascending sort on the operation number. -/
def sortByOpno (ops : List OpRow) : List OpRow :=
  ops.mergeSort leOp

/-- Station assignment (source line 55): after the sort, row i (0-based)
receives station (i + 1) * 10. -/
def station (ops : List OpRow) : List ℕ :=
  (List.range (sortByOpno ops).length).map fun i => (i + 1) * 10

/-- The scalar results displayed by the app for one analysis run. -/
structure AnalysisResult where
  bottleneck_time : ℚ
  takt_time : ℚ
  throughput : ℚ
  rows : List RowCalc
  new_bottleneck_time : ℚ
  new_throughput : ℚ
  old_bn : ℚ
  new_bn : ℚ
  moved : Bool
  total_time_saved : ℚ
  total_savings_order : ℚ

/-- The whole engine run on a resolved operation list (source lines 69-155).
The code performs no input validation at this stage: `none` arises only
from the modelled crash paths (NaN bottleneck of an empty frame followed by
the `IndexError` of `values[0]` on an empty flagged selection), never from
a deliberate rejection.  The takt and throughput guards mirror the Python
conditional expressions on lines 72, 73 and 130. -/
def analyze (ops : List OpRow) (specs : List ImpSpec)
    (customer_demand shift_sec order_qty : ℚ) : Option AnalysisResult :=
  match bottleneck_time ops with
  | none => none
  | some bt =>
    let takt := if customer_demand = 0 then 0 else shift_sec / customer_demand
    let thr := if bt = 0 then 0 else 3600 / bt
    match new_bottleneck_time order_qty ops specs with
    | none => none
    | some nbt =>
      let nthr := if nbt = 0 then 0 else 3600 / nbt
      match old_bn ops, new_bn order_qty ops specs with
      | some ob, some nb =>
        some ⟨bt, takt, thr, loopRows order_qty ops specs, nbt, nthr, ob, nb,
          decide (ob ≠ nb),
          total_time_saved order_qty ops specs,
          total_savings_order order_qty ops specs⟩
      | _, _ => none

/-- Concrete route used to exercise the definitions: the worked example of
the specification (operations 10/20/30 with cycle times 30/50/20). -/
def sampleOps : List OpRow :=
  [⟨10, "assemble", 30, 20⟩, ⟨20, "weld", 50, 15⟩, ⟨30, "pack", 20, 10⟩]

/-- The default improvement row of `edited_df`: zero extra operators, zero
saving, zero percent. -/
def noImprovement : ImpSpec :=
  ⟨0, 0, 0⟩

/-- Three default improvement rows, parallel to `sampleOps`. -/
def noImprovement3 : List ImpSpec :=
  [noImprovement, noImprovement, noImprovement]

/-- Improvement row of the specification's worked example: one extra
operator on the bottleneck operation. -/
def oneOperator : ImpSpec :=
  ⟨1, 0, 0⟩

/-- The improved cycle time of a zipped (operation, improvement) pair. -/
def impOf (p : OpRow × ImpSpec) : ℚ :=
  new_time p.1.cycletime p.2.extraOperators p.2.timeSaving p.2.improvementPct

lemma new_time_nonneg (original : ℚ) (operators : ℤ) (saving_sec improvement_pct : ℚ) :
    0 ≤ new_time original operators saving_sec improvement_pct :=
  le_max_right _ _

lemma new_time_le (original : ℚ) (operators : ℤ) (saving_sec improvement_pct : ℚ)
    (h0 : 0 ≤ original) (he : 0 ≤ operators) (hs : 0 ≤ saving_sec)
    (hp0 : 0 ≤ improvement_pct) (hp1 : improvement_pct ≤ 100)
     :
    new_time original operators saving_sec improvement_pct ≤ original := by
  unfold new_time
  have heq : (0 : ℚ) ≤ (operators : ℚ) := by exact_mod_cast he
  have he1 : (1 : ℚ) ≤ (operators : ℚ) + 1 := by linarith
  have ht1 : original / ((operators : ℚ) + 1) ≤ original := div_le_self h0 he1
  have ht1n : 0 ≤ original / ((operators : ℚ) + 1) := div_nonneg h0 (by linarith)
  set t1 := original / ((operators : ℚ) + 1) with ht1def
  have ht2 : max (t1 - saving_sec) 0 ≤ original := max_le (by linarith) h0
  have ht2n : 0 ≤ max (t1 - saving_sec) 0 := le_max_right _ _
  set t2 := max (t1 - saving_sec) 0 with ht2def
  by_cases hp : improvement_pct > 0
  · simp only [if_pos hp]
    have hf1 : 1 - improvement_pct / 100 ≤ 1 := by
      have : 0 ≤ improvement_pct / 100 := by positivity
      linarith
    have hf0 : 0 ≤ 1 - improvement_pct / 100 := by
      have : improvement_pct / 100 ≤ 1 := by
        rw [div_le_one (by norm_num : (0:ℚ) < 100)]
        linarith
      linarith
    have ht3 : t2 * (1 - improvement_pct / 100) ≤ t2 := by
      calc t2 * (1 - improvement_pct / 100) ≤ t2 * 1 := by
            exact mul_le_mul_of_nonneg_left hf1 ht2n
        _ = t2 := mul_one t2
    exact max_le (le_trans ht3 ht2) h0
  · simp only [if_neg hp]
    exact max_le ht2 h0

lemma zipWith_eq_map_zip {α β γ : Type} (f : α → β → γ) (l1 : List α) (l2 : List β) :
    List.zipWith f l1 l2 = (l1.zip l2).map fun p => f p.1 p.2 := by
  induction l1 generalizing l2 with
  | nil => simp
  | cons a t ih => cases l2 <;> simp [ih]

lemma zip_self_map {α β : Type} (l : List α) (g : α → β) :
    l.zip (l.map g) = l.map fun a => (a, g a) := by
  induction l with
  | nil => simp
  | cons a t ih => simp [ih]

lemma improved_cycle_eq_map (q : ℚ) (ops : List OpRow) (specs : List ImpSpec) :
    improved_cycle q ops specs = (ops.zip specs).map impOf := by
  simp only [improved_cycle, loopRows, zipWith_eq_map_zip, List.map_map]
  rfl

lemma foldl_max_le_foldl_max {l1 l2 : List ℚ} (h : List.Forall₂ (· ≤ ·) l1 l2) :
    ∀ {a b : ℚ}, a ≤ b → l1.foldl max a ≤ l2.foldl max b := by
  induction h with
  | nil => intro a b hab; exact hab
  | cons hxy _ ih => intro a b hab; exact ih (max_le_max hab hxy)

lemma seriesMax_le_of_forall2 {l1 l2 : List ℚ} (h : List.Forall₂ (· ≤ ·) l1 l2)
    {a : ℚ} (ha : seriesMax l1 = some a) :
    ∃ b, seriesMax l2 = some b ∧ a ≤ b := by
  cases h with
  | nil => simp [seriesMax] at ha
  | cons hxy htail =>
    simp only [seriesMax, Option.some.injEq] at ha
    exact ⟨_, rfl, ha ▸ foldl_max_le_foldl_max htail hxy⟩

lemma seriesMax_ne_nil {l : List ℚ} (h : l ≠ []) : ∃ m, seriesMax l = some m := by
  cases l with
  | nil => exact absurd rfl h
  | cons x xs => exact ⟨_, rfl⟩

lemma foldl_max_mem : ∀ (xs : List ℚ) (a : ℚ), xs.foldl max a = a ∨ xs.foldl max a ∈ xs := by
  intro xs
  induction xs with
  | nil => intro a; exact Or.inl rfl
  | cons x t ih =>
    intro a
    rcases ih (max a x) with h | h
    · rcases max_choice a x with h2 | h2
      · left; rw [List.foldl_cons, h, h2]
      · right; rw [List.foldl_cons, h, h2]; exact List.mem_cons_self x t
    · right; rw [List.foldl_cons]; exact List.mem_cons_of_mem x h

lemma seriesMax_mem {l : List ℚ} {m : ℚ} (h : seriesMax l = some m) : m ∈ l := by
  cases l with
  | nil => simp [seriesMax] at h
  | cons x xs =>
    simp only [seriesMax, Option.some.injEq] at h
    subst h
    rcases foldl_max_mem xs x with h2 | h2
    · rw [h2]; exact List.mem_cons_self x xs
    · exact List.mem_cons_of_mem x h2

lemma eqFlags_count (l : List ℚ) (b : ℚ) : (eqFlags l b).count true = l.count b := by
  induction l with
  | nil => simp [eqFlags]
  | cons x xs ih =>
    by_cases hx : x = b
    · simp [eqFlags, List.count_cons, hx] at ih ⊢
      omega
    · simp [eqFlags, List.count_cons, hx] at ih ⊢
      exact ih

lemma head_filter_spec {α : Type} {R : α → α → Prop} {p : α → Bool} {l : List α} {x : α}
    (hp : l.Pairwise R) (hx : (l.filter p).head? = some x) :
    x ∈ l ∧ p x = true ∧ ∀ y ∈ l, p y = true → x = y ∨ R x y := by
  have hsub : (l.filter p).Pairwise R := hp.sublist (List.filter_sublist l)
  cases hfl : l.filter p with
  | nil => rw [hfl] at hx; simp at hx
  | cons a t =>
    rw [hfl] at hx hsub
    simp only [List.head?_cons, Option.some.injEq] at hx
    have hmem : x ∈ l.filter p := by rw [hfl, ← hx]; exact List.mem_cons_self _ _
    obtain ⟨hxl, hxp⟩ := List.mem_filter.mp hmem
    refine ⟨hxl, hxp, ?_⟩
    intro y hy hpy
    have hyf : y ∈ l.filter p := List.mem_filter.mpr ⟨hy, hpy⟩
    rw [hfl] at hyf
    rcases List.mem_cons.mp hyf with h | h
    · exact Or.inl (hx ▸ h.symm)
    · exact Or.inr (hx ▸ (List.pairwise_cons.mp hsub).1 y h)

lemma improved_forall2 (q : ℚ) :
    ∀ (ops : List OpRow) (specs : List ImpSpec),
      specs.length = ops.length →
      (∀ o ∈ ops, 0 ≤ o.cycletime) →
      (∀ s ∈ specs, 0 ≤ s.extraOperators ∧ 0 ≤ s.timeSaving ∧
        0 ≤ s.improvementPct ∧ s.improvementPct ≤ 100) →
      List.Forall₂ (· ≤ ·) (improved_cycle q ops specs) (ops.map fun o => o.cycletime)
  | [], [], _, _, _ => by simp [improved_cycle, loopRows]
  | [], _ :: _, hlen, _, _ => by simp at hlen
  | _ :: _, [], hlen, _, _ => by simp at hlen
  | o :: ops, s :: specs, hlen, hc, hs => by
    simp only [improved_cycle, loopRows, List.zipWith_cons_cons, List.map_cons]
    constructor
    · obtain ⟨h1, h2, h3, h4⟩ := hs s (List.mem_cons_self s specs)
      exact new_time_le o.cycletime s.extraOperators s.timeSaving s.improvementPct
        (hc o (List.mem_cons_self o ops)) h1 h2 h3 h4
    · exact improved_forall2 q ops specs (by simpa using hlen)
        (fun o' ho' => hc o' (List.mem_cons_of_mem o ho'))
        (fun s' hs' => hs s' (List.mem_cons_of_mem s hs'))

/-- C1: for every operation, the improved cycle time is computed by applying
exactly the specification's four steps in order to the original cycle time:
divide by (extra_operators + 1); subtract the fixed time-saving and floor at
0; if the percentage improvement is > 0, multiply by (1 - percentage/100);
floor at 0 again. -/
theorem new_time_follows_spec_steps (original : ℚ) (operators : ℤ)
    (saving_sec improvement_pct : ℚ) :
    new_time original operators saving_sec improvement_pct
      = specImprovedTime original operators saving_sec improvement_pct := rfl

/-- C2: for every operation row the exact equations
reduction = original - improved, savings_per_unit = (reduction / 3600) * rate
and savings_per_order = savings_per_unit * order_quantity hold, and the route
totals are the sums of the per-row reduction and per-order savings. -/
theorem row_equations (q : ℚ) (ops : List OpRow) (specs : List ImpSpec) (i : ℕ)
    (h1 : i < (loopRows q ops specs).length) (h2 : i < ops.length) :
    ((loopRows q ops specs).get ⟨i, h1⟩).red
        = (ops.get ⟨i, h2⟩).cycletime - ((loopRows q ops specs).get ⟨i, h1⟩).improved
    ∧ ((loopRows q ops specs).get ⟨i, h1⟩).save_unit
        = (((loopRows q ops specs).get ⟨i, h1⟩).red / 3600) * (ops.get ⟨i, h2⟩).hourrate
    ∧ ((loopRows q ops specs).get ⟨i, h1⟩).save_order
        = ((loopRows q ops specs).get ⟨i, h1⟩).save_unit * q
    ∧ total_time_saved q ops specs = (reduction q ops specs).sum
    ∧ total_savings_order q ops specs = (savings_order q ops specs).sum := by
  have hs : i < specs.length := by
    simp only [loopRows, List.length_zipWith, lt_min_iff] at h1
    exact h1.2
  have hget : (loopRows q ops specs).get ⟨i, h1⟩
      = rowCalc q (ops.get ⟨i, h2⟩) (specs.get ⟨i, hs⟩) := by
    simp [loopRows, List.get_eq_getElem, List.getElem_zipWith]
  rw [hget]
  exact ⟨rfl, rfl, rfl, rfl, rfl⟩

/-- Witness for C2 at the worked example, row 0 with no improvement. -/
theorem row_equations_witness :
    ((loopRows 500 sampleOps noImprovement3).get ⟨0, by decide⟩).red
        = (sampleOps.get ⟨0, by decide⟩).cycletime
          - ((loopRows 500 sampleOps noImprovement3).get ⟨0, by decide⟩).improved
    ∧ ((loopRows 500 sampleOps noImprovement3).get ⟨0, by decide⟩).save_unit
        = (((loopRows 500 sampleOps noImprovement3).get ⟨0, by decide⟩).red / 3600)
          * (sampleOps.get ⟨0, by decide⟩).hourrate
    ∧ ((loopRows 500 sampleOps noImprovement3).get ⟨0, by decide⟩).save_order
        = ((loopRows 500 sampleOps noImprovement3).get ⟨0, by decide⟩).save_unit * 500
    ∧ total_time_saved 500 sampleOps noImprovement3
        = (reduction 500 sampleOps noImprovement3).sum
    ∧ total_savings_order 500 sampleOps noImprovement3
        = (savings_order 500 sampleOps noImprovement3).sum :=
  row_equations 500 sampleOps noImprovement3 0 (by decide) (by decide)

/-- C3: every improved cycle time produced by the calculation loop is
nonnegative, for any combination of improvement inputs. -/
theorem improved_cycle_nonneg (q : ℚ) (ops : List OpRow) (specs : List ImpSpec) :
    ∀ x ∈ improved_cycle q ops specs, 0 ≤ x := by
  intro x hx
  rw [improved_cycle_eq_map] at hx
  obtain ⟨p, _, rfl⟩ := List.mem_map.mp hx
  exact new_time_nonneg _ _ _ _

/-- Witness for C3: zero extra operators, a fixed saving larger than the
original cycle time and a percentage above 100 still yield a nonnegative
(here zero) improved time. -/
theorem improved_cycle_nonneg_witness :
    (0 : ℚ) ∈ improved_cycle 500 sampleOps [⟨0, 100, 150⟩] ∧ (0 : ℚ) ≤ 0 :=
  ⟨by norm_num [improved_cycle, loopRows, rowCalc, new_time, sampleOps],
    improved_cycle_nonneg 500 sampleOps [⟨0, 100, 150⟩] 0
      (by norm_num [improved_cycle, loopRows, rowCalc, new_time, sampleOps])⟩

/-- C4 (code bug evidence): on an empty resolved operation list the engine
does not signal invalid input; the run dies on the modelled crash path
(NaN bottleneck followed by the IndexError of `values[0]` on the empty
flagged selection, source lines 70 and 140), embedded as `none`. -/
theorem empty_route_ops_crash (specs : List ImpSpec) (d s q : ℚ) :
    analyze [] specs d s q = none := rfl

/-- C5 (code bug evidence): a zero customer demand is not rejected; the
engine proceeds and publishes the silently degenerate takt time 0
(the guard of source line 72). -/
theorem zero_demand_not_rejected :
    (analyze sampleOps noImprovement3 0 28800 500).map (fun r => r.takt_time) = some 0 := by
  norm_num [analyze, bottleneck_time, new_bottleneck_time, seriesMax, sampleOps, noImprovement3,
    noImprovement, improved_cycle, loopRows, rowCalc, new_time, old_bn, new_bn, bottleneckFlags,
    newBottleneckFlags, eqFlags, total_time_saved, total_savings_order, reduction, savings_order]

/-- C6 (code bug evidence): an improvement percentage of 150 (outside
[0, 100]) is not rejected; the engine computes results from it (the first
operation's improved time is clamped to 0 by the defensive floor). -/
theorem pct_above_100_not_rejected :
    (analyze sampleOps [⟨0, 0, 150⟩, noImprovement, noImprovement] 400 28800 500).map
      (fun r => r.rows.map fun c => c.improved) = some [0, 50, 20] := by
  norm_num [analyze, bottleneck_time, new_bottleneck_time, seriesMax, sampleOps,
    noImprovement, improved_cycle, loopRows, rowCalc, new_time, old_bn, new_bn, bottleneckFlags,
    newBottleneckFlags, eqFlags, total_time_saved, total_savings_order, reduction, savings_order]

lemma improved_ne_nil (q : ℚ) {ops : List OpRow} {specs : List ImpSpec}
    (hne : ops ≠ []) (hlen : specs.length = ops.length) :
    improved_cycle q ops specs ≠ [] := by
  cases ops with
  | nil => exact absurd rfl hne
  | cons o t =>
    cases specs with
    | nil => simp at hlen
    | cons s ts => simp [improved_cycle, loopRows]

/-- C7: with a non-empty operation list, nonnegative cycle times, and every
improvement specification having extra operators >= 0, saving >= 0 and a
percentage within [0, 100], the improved bottleneck time never exceeds the
current bottleneck time. -/
theorem improvement_never_increases_bottleneck (q : ℚ) (ops : List OpRow)
    (specs : List ImpSpec) (hne : ops ≠ []) (hlen : specs.length = ops.length)
    (hc : ∀ o ∈ ops, 0 ≤ o.cycletime)
    (hs : ∀ s ∈ specs, 0 ≤ s.extraOperators ∧ 0 ≤ s.timeSaving ∧
      0 ≤ s.improvementPct ∧ s.improvementPct ≤ 100) :
    ∃ bt nbt, bottleneck_time ops = some bt
      ∧ new_bottleneck_time q ops specs = some nbt ∧ nbt ≤ bt := by
  have hf2 := improved_forall2 q ops specs hlen hc hs
  obtain ⟨nbt, hnbt⟩ := seriesMax_ne_nil (improved_ne_nil q hne hlen)
  obtain ⟨bt, hbt, hle⟩ := seriesMax_le_of_forall2 hf2 hnbt
  exact ⟨bt, nbt, hbt, hnbt, hle⟩

/-- Witness for C7 at the specification's worked example: one extra operator
on the bottleneck operation lowers the bottleneck from 50 to 30. -/
theorem improvement_never_increases_bottleneck_witness :
    ∃ bt nbt, bottleneck_time sampleOps = some bt
      ∧ new_bottleneck_time 500 sampleOps [noImprovement, oneOperator, noImprovement] = some nbt
      ∧ nbt ≤ bt :=
  improvement_never_increases_bottleneck 500 sampleOps
    [noImprovement, oneOperator, noImprovement]
    (by simp [sampleOps]) rfl
    (by norm_num [sampleOps])
    (by norm_num [noImprovement, oneOperator])

/-- C8: a row's current-bottleneck flag is set exactly when its cycle time
equals the maximum cycle time, and its new-bottleneck flag exactly when its
improved time equals the maximum improved time; all tied rows are flagged,
and under pairwise-distinct values exactly one row is flagged. -/
theorem bottleneck_flags_spec (q : ℚ) (ops : List OpRow) (specs : List ImpSpec)
    (hne : ops ≠ []) (hlen : specs.length = ops.length) :
    ∃ bt nbt, bottleneck_time ops = some bt
      ∧ new_bottleneck_time q ops specs = some nbt
      ∧ (∀ o b, (o, b) ∈ ops.zip (bottleneckFlags ops) → (b = true ↔ o.cycletime = bt))
      ∧ (∀ p b, (p, b) ∈ (ops.zip specs).zip (newBottleneckFlags q ops specs) →
          (b = true ↔ new_time p.1.cycletime p.2.extraOperators p.2.timeSaving
            p.2.improvementPct = nbt))
      ∧ ((ops.map fun o => o.cycletime).Nodup → (bottleneckFlags ops).count true = 1)
      ∧ ((improved_cycle q ops specs).Nodup
          → (newBottleneckFlags q ops specs).count true = 1) := by
  have hnec : ops.map (fun o => o.cycletime) ≠ [] := by simpa using hne
  obtain ⟨bt, hbt⟩ := seriesMax_ne_nil hnec
  obtain ⟨nbt, hnbt⟩ := seriesMax_ne_nil (improved_ne_nil q hne hlen)
  have hbtime : bottleneck_time ops = some bt := hbt
  have hnbtime : new_bottleneck_time q ops specs = some nbt := hnbt
  have hflagsE : bottleneckFlags ops = eqFlags (ops.map fun o => o.cycletime) bt := by
    simp [bottleneckFlags, hbtime]
  have hflags : bottleneckFlags ops = ops.map fun o => decide (o.cycletime = bt) := by
    rw [hflagsE]; simp [eqFlags, List.map_map, Function.comp]
  have hnfE : newBottleneckFlags q ops specs = eqFlags (improved_cycle q ops specs) nbt := by
    simp [newBottleneckFlags, hnbtime]
  have hnf : newBottleneckFlags q ops specs
      = (ops.zip specs).map fun p => decide (impOf p = nbt) := by
    rw [hnfE, improved_cycle_eq_map]; simp [eqFlags, List.map_map, Function.comp]
  refine ⟨bt, nbt, hbtime, hnbtime, ?_, ?_, ?_, ?_⟩
  · intro o b hmem
    rw [hflags, zip_self_map] at hmem
    obtain ⟨o', _, heq⟩ := List.mem_map.mp hmem
    injection heq with h1 h2
    subst h1
    rw [← h2]
    simp
  · intro p b hmem
    rw [hnf, zip_self_map] at hmem
    obtain ⟨p', _, heq⟩ := List.mem_map.mp hmem
    injection heq with h1 h2
    subst h1
    rw [← h2]
    simp [impOf]
  · intro hnd
    rw [hflagsE, eqFlags_count]
    exact List.count_eq_one_of_mem hnd (seriesMax_mem hbt)
  · intro hnd
    rw [hnfE, eqFlags_count]
    exact List.count_eq_one_of_mem hnd (seriesMax_mem hnbt)

/-- Witness for C8 at the worked example with no improvement inputs. -/
theorem bottleneck_flags_spec_witness :
    ∃ bt nbt, bottleneck_time sampleOps = some bt
      ∧ new_bottleneck_time 500 sampleOps noImprovement3 = some nbt
      ∧ (∀ o b, (o, b) ∈ sampleOps.zip (bottleneckFlags sampleOps)
          → (b = true ↔ o.cycletime = bt))
      ∧ (∀ p b, (p, b) ∈ (sampleOps.zip noImprovement3).zip
            (newBottleneckFlags 500 sampleOps noImprovement3) →
          (b = true ↔ new_time p.1.cycletime p.2.extraOperators p.2.timeSaving
            p.2.improvementPct = nbt))
      ∧ ((sampleOps.map fun o => o.cycletime).Nodup
          → (bottleneckFlags sampleOps).count true = 1)
      ∧ ((improved_cycle 500 sampleOps noImprovement3).Nodup
          → (newBottleneckFlags 500 sampleOps noImprovement3).count true = 1) :=
  bottleneck_flags_spec 500 sampleOps noImprovement3 (by simp [sampleOps]) rfl

/-- C9: for a route with N operations the assigned station numbers are
exactly 10, 20, ..., 10*N in order; they are positive multiples of 10 and
are attached to the rows in ascending operation-number order. -/
theorem station_numbers (ops : List OpRow) :
    station ops = (List.range ops.length).map (fun i => 10 * (i + 1))
      ∧ (∀ x ∈ station ops, 0 < x ∧ 10 ∣ x)
      ∧ List.Pairwise (fun a b : OpRow => a.opno ≤ b.opno) (sortByOpno ops) := by
  refine ⟨?_, ?_, ?_⟩
  · rw [station, sortByOpno, List.length_mergeSort]
    simp [Nat.mul_comm]
  · intro x hx
    simp only [station, List.mem_map, List.mem_range] at hx
    obtain ⟨i, _, rfl⟩ := hx
    exact ⟨by positivity, dvd_mul_left 10 (i + 1)⟩
  · have ht : ∀ (a b c : OpRow), leOp a b → leOp b c → leOp a c := by
      intro a b c hab hbc
      simp only [leOp, decide_eq_true_eq] at hab hbc ⊢
      exact le_trans hab hbc
    have hto : ∀ (a b : OpRow), leOp a b || leOp b a := by
      intro a b
      simp only [leOp, Bool.or_eq_true, decide_eq_true_eq]
      exact le_total a.opno b.opno
    have h := List.sorted_mergeSort ht hto ops
    exact h.imp (by intro a b hab; simpa [leOp] using hab)

/-- Witness for C9 at the worked example. -/
theorem station_numbers_witness :
    station sampleOps = (List.range sampleOps.length).map (fun i => 10 * (i + 1))
      ∧ (∀ x ∈ station sampleOps, 0 < x ∧ 10 ∣ x)
      ∧ List.Pairwise (fun a b : OpRow => a.opno ≤ b.opno) (sortByOpno sampleOps) :=
  station_numbers sampleOps

lemma pairwise_zip_left {α β : Type} {R : α → α → Prop} :
    ∀ (l1 : List α) (l2 : List β), l1.Pairwise R → (l1.zip l2).Pairwise fun a b => R a.1 b.1 := by
  intro l1
  induction l1 with
  | nil => intro l2 _; simp
  | cons a t ih =>
    intro l2 hp
    cases l2 with
    | nil => simp
    | cons b t2 =>
      rw [List.zip_cons_cons, List.pairwise_cons]
      rw [List.pairwise_cons] at hp
      refine ⟨?_, ih t2 hp.2⟩
      intro p hpmem
      exact hp.1 p.1 (List.of_mem_zip hpmem).1

lemma zip_map_snd {α β γ : Type} :
    ∀ (l1 : List α) (l2 : List β) (g : α × β → γ),
      l1.zip ((l1.zip l2).map g) = (l1.zip l2).map fun p => (p.1, g p) := by
  intro l1
  induction l1 with
  | nil => intro l2 g; simp
  | cons a t ih =>
    intro l2 g
    cases l2 with
    | nil => simp
    | cons b t2 => simp [List.zip_cons_cons, ih t2 g]

/-- C10: on a non-empty route sorted by operation number, the moved-bottleneck
insight extracts the operation number of the first (hence lowest-opno)
current-bottleneck row and of the first (hence lowest-opno) new-bottleneck
row, and reports the bottleneck as moved exactly when the two differ. -/
theorem bottleneck_moved_spec (q : ℚ) (ops : List OpRow) (specs : List ImpSpec)
    (hne : ops ≠ []) (hlen : specs.length = ops.length)
    (hsorted : ops.Pairwise fun a b => a.opno ≤ b.opno) :
    ∃ bt nbt ob nb,
      bottleneck_time ops = some bt
      ∧ new_bottleneck_time q ops specs = some nbt
      ∧ old_bn ops = some ob
      ∧ new_bn q ops specs = some nb
      ∧ (∃ o ∈ ops, o.cycletime = bt ∧ ob = o.opno)
      ∧ (∀ o ∈ ops, o.cycletime = bt → ob ≤ o.opno)
      ∧ (∃ p ∈ ops.zip specs,
          new_time p.1.cycletime p.2.extraOperators p.2.timeSaving p.2.improvementPct = nbt
          ∧ nb = p.1.opno)
      ∧ (∀ p ∈ ops.zip specs,
          new_time p.1.cycletime p.2.extraOperators p.2.timeSaving p.2.improvementPct = nbt
          → nb ≤ p.1.opno)
      ∧ (bottleneck_moved q ops specs = some true ↔ ob ≠ nb) := by
  have hnec : ops.map (fun o => o.cycletime) ≠ [] := by simpa using hne
  obtain ⟨bt, hbt⟩ := seriesMax_ne_nil hnec
  obtain ⟨nbt, hnbt⟩ := seriesMax_ne_nil (improved_ne_nil q hne hlen)
  have hbtime : bottleneck_time ops = some bt := hbt
  have hnbtime : new_bottleneck_time q ops specs = some nbt := hnbt
  have hflags : bottleneckFlags ops = ops.map fun o => decide (o.cycletime = bt) := by
    simp only [bottleneckFlags, hbtime]
    simp [eqFlags, List.map_map, Function.comp]
  have hzipold : ops.zip (bottleneckFlags ops)
      = ops.map fun o => (o, decide (o.cycletime = bt)) := by
    rw [hflags, zip_self_map]
  have hfilter_old : (ops.zip (bottleneckFlags ops)).filter (fun p => p.2)
      = (ops.filter fun o => decide (o.cycletime = bt)).map
          fun o => (o, decide (o.cycletime = bt)) := by
    rw [hzipold, List.filter_map]
    rfl
  obtain ⟨omax, homax, homax2⟩ := List.mem_map.mp (seriesMax_mem hbt)
  have hfo : (ops.filter fun o => decide (o.cycletime = bt)) ≠ [] := by
    intro hemp
    have hm : omax ∈ ops.filter fun o => decide (o.cycletime = bt) :=
      List.mem_filter.mpr ⟨homax, by simp [homax2]⟩
    rw [hemp] at hm
    simp at hm
  obtain ⟨ofirst, t, hcons⟩ := List.exists_cons_of_ne_nil hfo
  have hob : old_bn ops = some ofirst.opno := by
    simp [old_bn, hfilter_old, hcons]
  have hspec_old := head_filter_spec hsorted
    (show (ops.filter fun o => decide (o.cycletime = bt)).head? = some ofirst by
      rw [hcons]; rfl)
  have hmapfst : (ops.zip specs).map Prod.fst = ops :=
    List.map_fst_zip ops specs (le_of_eq hlen.symm)
  have hpairs_sorted : (ops.zip specs).Pairwise fun a b => a.1.opno ≤ b.1.opno :=
    pairwise_zip_left ops specs hsorted
  have hnf : newBottleneckFlags q ops specs
      = (ops.zip specs).map fun p => decide (impOf p = nbt) := by
    simp only [newBottleneckFlags, hnbtime]
    rw [improved_cycle_eq_map]
    simp [eqFlags, List.map_map, Function.comp]
  have hzipnew : ops.zip (newBottleneckFlags q ops specs)
      = (ops.zip specs).map fun p => (p.1, decide (impOf p = nbt)) := by
    rw [hnf, zip_map_snd]
  have hfilter_new : (ops.zip (newBottleneckFlags q ops specs)).filter (fun p => p.2)
      = ((ops.zip specs).filter fun p => decide (impOf p = nbt)).map
          fun p => (p.1, decide (impOf p = nbt)) := by
    rw [hzipnew, List.filter_map]
    rfl
  have hmem2 : nbt ∈ (ops.zip specs).map impOf := by
    rw [← improved_cycle_eq_map]
    exact seriesMax_mem hnbt
  obtain ⟨pmax, hpmax, hpmax2⟩ := List.mem_map.mp hmem2
  have hfn : ((ops.zip specs).filter fun p => decide (impOf p = nbt)) ≠ [] := by
    intro hemp
    have hm : pmax ∈ (ops.zip specs).filter fun p => decide (impOf p = nbt) :=
      List.mem_filter.mpr ⟨hpmax, by simp [hpmax2]⟩
    rw [hemp] at hm
    simp at hm
  obtain ⟨pfirst, t2, hcons2⟩ := List.exists_cons_of_ne_nil hfn
  have hnbn : new_bn q ops specs = some pfirst.1.opno := by
    simp [new_bn, hfilter_new, hcons2]
  have hspec_new := head_filter_spec hpairs_sorted
    (show ((ops.zip specs).filter fun p => decide (impOf p = nbt)).head? = some pfirst by
      rw [hcons2]; rfl)
  refine ⟨bt, nbt, ofirst.opno, pfirst.1.opno, hbtime, hnbtime, hob, hnbn,
    ?_, ?_, ?_, ?_, ?_⟩
  · exact ⟨ofirst, hspec_old.1, by simpa using hspec_old.2.1, rfl⟩
  · intro o ho hcyc
    rcases hspec_old.2.2 o ho (by simp [hcyc]) with h | h
    · exact h ▸ le_refl _
    · exact h
  · exact ⟨pfirst, hspec_new.1, by simpa [impOf] using hspec_new.2.1, rfl⟩
  · intro p hp hnt
    rcases hspec_new.2.2 p hp (by simp [impOf, hnt]) with h | h
    · exact h ▸ le_refl _
    · exact h
  · rw [bottleneck_moved, hob, hnbn]
    simp

/-- Witness for C10: with one extra operator on operation 20, the bottleneck
of the worked example moves from operation 20 to operation 10. -/
theorem bottleneck_moved_spec_witness :
    ∃ bt nbt ob nb,
      bottleneck_time sampleOps = some bt
      ∧ new_bottleneck_time 500 sampleOps [noImprovement, oneOperator, noImprovement] = some nbt
      ∧ old_bn sampleOps = some ob
      ∧ new_bn 500 sampleOps [noImprovement, oneOperator, noImprovement] = some nb
      ∧ (∃ o ∈ sampleOps, o.cycletime = bt ∧ ob = o.opno)
      ∧ (∀ o ∈ sampleOps, o.cycletime = bt → ob ≤ o.opno)
      ∧ (∃ p ∈ sampleOps.zip [noImprovement, oneOperator, noImprovement],
          new_time p.1.cycletime p.2.extraOperators p.2.timeSaving p.2.improvementPct = nbt
          ∧ nb = p.1.opno)
      ∧ (∀ p ∈ sampleOps.zip [noImprovement, oneOperator, noImprovement],
          new_time p.1.cycletime p.2.extraOperators p.2.timeSaving p.2.improvementPct = nbt
          → nb ≤ p.1.opno)
      ∧ (bottleneck_moved 500 sampleOps [noImprovement, oneOperator, noImprovement] = some true
          ↔ ob ≠ nb) :=
  bottleneck_moved_spec 500 sampleOps [noImprovement, oneOperator, noImprovement]
    (by simp [sampleOps]) rfl
    (by norm_num [sampleOps, List.pairwise_cons])
